import Mathlib

/-!
Shallow embedding of the Todo-List Flask application (src/models.py,
src/forms.py, src/main.py).

The database is modelled as a `Store` holding the `users` and `todos` tables
as lists in insertion order, together with the next auto-increment primary
keys (SQLite starts at 1).  A browser session is an `Option Nat`: `none` is
the anonymous state, `some uid` a session cookie holding a user id, as
Flask-Login stores it.  Each request handler of main.py becomes a function
from the store, the session and the submitted form fields to an `HResult`
recording the HTTP-level response, the flashed messages, the new session and
the new store.
-/

namespace TodoApp

/-- One row of the `users` table (models.py, class User): surrogate key,
unique email, stored password hash. -/
structure User where
  id : Nat
  email : String
  password : String
deriving Repr, DecidableEq

/-- One row of the `todos` table (models.py, class Todo): surrogate key,
content, completion flag (defaults to false on creation) and the owning
user's id (foreign key to users.id, ON DELETE CASCADE). -/
structure Todo where
  id : Nat
  content : String
  completed : Bool
  user_id : Nat
deriving Repr, DecidableEq

/-- The persistent store: both tables in insertion order plus the next
auto-increment primary key of each (SQLite auto-increment starts at 1). -/
structure Store where
  users : List User
  todos : List Todo
  nextUserId : Nat
  nextTodoId : Nat
deriving Repr, DecidableEq

/-- The empty database created by `db.create_all()` on process start. -/
def emptyStore : Store := ⟨[], [], 1, 1⟩

/-! ### Password hashing (werkzeug.security, used by models.py)

`generate_password_hash` produces `method$salt$hash` where the salt is drawn
fresh at random and the hash is a salted iterated one-way digest (pbkdf2);
`check_password_hash` splits the stored string on `$`, recovers the salt and
recomputes the digest of the candidate plaintext.  Randomness and the actual
digest are outside a shallow embedding, so the model fixes the salt and uses
an injective digest: with the salt fixed, recomputing the digest and
comparing equals recomputing the whole stored string and comparing, which is
how `check_password_hash` is modelled.  The claims depend only on the
verification algebra (matching plaintext verifies, any other plaintext does
not, the stored string is never the plaintext), which this model preserves
under the ideal-hash reading the spec mandates. -/

/-- The fixed salt standing in for werkzeug's random 16-character salt. -/
def modelSalt : String := "Zs1WQkcjWkbRa8yX"

/-- The salted digest standing in for pbkdf2, injective in the plaintext for
each salt. -/
def hashDigest (salt plaintext : String) : String :=
  salt ++ "|" ++ plaintext

/-- Models werkzeug's `generate_password_hash`: `method$salt$digest`. -/
def generate_password_hash (plaintext : String) : String :=
  "pbkdf2:sha256:600000" ++ "$" ++ modelSalt ++ "$" ++ hashDigest modelSalt plaintext

/-- Models werkzeug's `check_password_hash`: recompute with the (fixed) salt
and compare to the stored string. -/
def check_password_hash (stored plaintext : String) : Bool :=
  stored == generate_password_hash plaintext

/-- models.py `User.set_password`: store the derived hash, never the
plaintext. -/
def User.set_password (u : User) (plaintext : String) : User :=
  { u with password := generate_password_hash plaintext }

/-- models.py `User.check_password`: compare a plaintext against the stored
hash. -/
def User.check_password (u : User) (plaintext : String) : Bool :=
  check_password_hash u.password plaintext

/-! ### Form validation (forms.py, wtforms validators) -/

/-- wtforms `DataRequired` on a string field: fails when the value is empty
or whitespace-only (the validator strips the string before testing it). -/
def dataRequired (s : String) : Bool :=
  !(s.data.dropWhile Char.isWhitespace).isEmpty

/-- Models the wtforms `Email()` format validator: one `@` separating a
non-empty local part from a non-empty domain containing a dot.  The claims
never hinge on email-format edge cases; concrete emails used below pass the
real validator too. -/
def emailOk (e : String) : Bool :=
  match e.data.splitOn '@' with
  | [l, d] => !l.isEmpty && !d.isEmpty && d.contains '.'
  | _ => false

/-- forms.py `RegisterForm.validate`: email present and email-shaped,
password present with at least 6 characters, confirmation present and equal
to the password. -/
def registerFormValid (email password password2 : String) : Bool :=
  dataRequired email && emailOk email &&
  dataRequired password && decide (6 ≤ password.length) &&
  dataRequired password2 && (password2 == password)

/-- forms.py `LoginForm.validate`: email present and email-shaped, password
present. -/
def loginFormValid (email password : String) : Bool :=
  dataRequired email && emailOk email && dataRequired password

/-- forms.py `TodoForm.validate`: content present (non-empty) and at most
200 characters. -/
def todoFormValid (content : String) : Bool :=
  dataRequired content && decide (content.length ≤ 200)

/-! ### SQLAlchemy-level queries (main.py, models.py) -/

/-- `User.query.filter_by(email=...).first()`. -/
def findByEmail (s : Store) (e : String) : Option User :=
  s.users.find? (·.email == e)

/-- main.py `load_user` / `db.session.get(User, uid)`: fetch a user by
primary key. -/
def load_user (s : Store) (uid : Nat) : Option User :=
  s.users.find? (·.id == uid)

/-- `db.session.get(Todo, todo_id)`: fetch a todo by primary key. -/
def getTodo (s : Store) (tid : Nat) : Option Todo :=
  s.todos.find? (·.id == tid)

/-- `Todo.query.filter_by(user_id=...).all()`: the requester's todos in
insertion order. -/
def listForOwner (s : Store) (uid : Nat) : List Todo :=
  s.todos.filter (·.user_id == uid)

/-- `db.session.add(user); db.session.commit()` under the `unique=True`
constraint on users.email (models.py line 21): the commit refuses a
duplicate email at the store level regardless of any prior existence check,
otherwise assigns the next primary key and appends the row. -/
def dbInsertUser (s : Store) (email pwhash : String) : Except Unit (Store × Nat) :=
  if s.users.any (·.email == email) then
    .error ()
  else
    .ok ({ s with
            users := s.users ++ [⟨s.nextUserId, email, pwhash⟩],
            nextUserId := s.nextUserId + 1 },
         s.nextUserId)

/-- Write back the tracked change to the (first, hence by the primary-key
constraint unique) todo with the given id, as `db.session.commit` persists a
mutation of a fetched row. -/
def setTodo (tid : Nat) (f : Todo → Todo) : List Todo → List Todo
  | [] => []
  | t :: ts => if t.id == tid then f t :: ts else t :: setTodo tid f ts

/-- `db.session.delete(todo); db.session.commit()`: remove the (first, hence
unique) row with the given primary key. -/
def eraseTodo (tid : Nat) : List Todo → List Todo
  | [] => []
  | t :: ts => if t.id == tid then ts else t :: eraseTodo tid ts

/-- Cascade delete of a user (models.py: `cascade='all, delete-orphan'` on
User.todos, `ondelete='CASCADE'` on Todo.user_id).  No request handler
invokes it; it is the structural operation the schema declares: deleting a
user removes the user row and every todo row referencing it. -/
def deleteUser (s : Store) (uid : Nat) : Store :=
  { s with
    users := s.users.filter (·.id != uid),
    todos := s.todos.filter (·.user_id != uid) }

/-! ### Request handlers (main.py) -/

/-- The HTTP-level response each handler returns. -/
inductive Response where
  | redirectRegister
  | redirectLogin
  | redirectIndex
  | redirectNext (url : String)
  | renderRegister
  | renderLogin
  | renderIndex (todos : List Todo)
  | serverError
deriving Repr, DecidableEq

/-- Observable result of one request: response, flashed `(message,
category)` pairs, the session afterwards, the store afterwards. -/
structure HResult where
  response : Response
  flashes : List (String × String)
  session : Option Nat
  store : Store
deriving Repr, DecidableEq

/-- Per-request resolution of `current_user`: Flask-Login reads the user id
from the session cookie and loads the row via `load_user`; an absent cookie
or a deleted user resolves to anonymous. -/
def currentUser (s : Store) (sess : Option Nat) : Option User :=
  match sess with
  | none => none
  | some uid => load_user s uid

/-- The `@login_required` failure path: redirect to the login view with the
configured informational message (category `message`); the session cookie is
left as it was, the store untouched. -/
def loginRequiredRedirect (s : Store) (sess : Option Nat) : HResult :=
  ⟨.redirectLogin, [("Please log in to access this page.", "message")], sess, s⟩

/-- main.py `register` (lines 50-96): on a valid submission, pre-check the
email, flash and redirect on a duplicate, otherwise hash the password and
insert; an invalid submission re-renders the form.  The unreachable
`.error` branch of the insert models the unhandled IntegrityError a
check/insert race would raise. -/
def register (s : Store) (sess : Option Nat) (email password password2 : String) :
    HResult :=
  if registerFormValid email password password2 then
    match findByEmail s email with
    | some _ =>
        ⟨.redirectRegister, [("Email already registered", "danger")], sess, s⟩
    | none =>
        match dbInsertUser s email (generate_password_hash password) with
        | .ok (s', _) =>
            ⟨.redirectLogin, [("Registration successful! Please log in.", "success")],
             sess, s'⟩
        | .error _ => ⟨.serverError, [], sess, s⟩
  else
    ⟨.renderRegister, [], sess, s⟩

/-- main.py `login` (lines 99-123): look up by email; if the user exists and
the password verifies, store the user id in the session and redirect to
`next` or the index; otherwise flash one generic failure and re-render,
leaving the session as it was. -/
def login (s : Store) (sess : Option Nat) (email password : String)
    (remember : Bool) (next? : Option String) : HResult :=
  if loginFormValid email password then
    match findByEmail s email with
    | some u =>
        if u.check_password password then
          ⟨(match next? with
            | some url => .redirectNext url
            | none => .redirectIndex),
           [], some u.id, s⟩
        else
          ⟨.renderLogin, [("Invalid email or password", "danger")], sess, s⟩
    | none =>
        ⟨.renderLogin, [("Invalid email or password", "danger")], sess, s⟩
  else
    ⟨.renderLogin, [], sess, s⟩

/-- main.py `logout` (lines 126-136): guarded by `@login_required`; when
authenticated, clear the session and redirect to login with an
informational flash. -/
def logout (s : Store) (sess : Option Nat) : HResult :=
  match currentUser s sess with
  | none => loginRequiredRedirect s sess
  | some _ =>
      ⟨.redirectLogin, [("You have been logged out", "info")], none, s⟩

/-- main.py `index` (lines 139-180): guarded by `@login_required`.  A POST
with a valid TodoForm inserts a todo for the current user (completion flag
takes its column default, false) and redirects; otherwise the handler
renders the current user's list.  `content?` is `some c` for a POST with
content field `c` and `none` for a GET. -/
def index (s : Store) (sess : Option Nat) (content? : Option String) : HResult :=
  match currentUser s sess with
  | none => loginRequiredRedirect s sess
  | some u =>
      match content? with
      | some c =>
          if todoFormValid c then
            ⟨.redirectIndex, [], sess,
             { s with
                todos := s.todos ++ [⟨s.nextTodoId, c, false, u.id⟩],
                nextTodoId := s.nextTodoId + 1 }⟩
          else
            ⟨.renderIndex (listForOwner s u.id), [], sess, s⟩
      | none => ⟨.renderIndex (listForOwner s u.id), [], sess, s⟩

/-- main.py `toggle` (lines 183-214): guarded by `@login_required`; fetch by
primary key, flash `Todo not found` if absent, flash `Unauthorized` if the
requester is not the owner, otherwise flip the completion flag and
persist. -/
def toggle (s : Store) (sess : Option Nat) (todo_id : Nat) : HResult :=
  match currentUser s sess with
  | none => loginRequiredRedirect s sess
  | some u =>
      match getTodo s todo_id with
      | none => ⟨.redirectIndex, [("Todo not found", "danger")], sess, s⟩
      | some t =>
          if t.user_id != u.id then
            ⟨.redirectIndex, [("Unauthorized", "danger")], sess, s⟩
          else
            ⟨.redirectIndex, [], sess,
             { s with
                todos := setTodo todo_id
                  (fun td => { td with completed := !td.completed }) s.todos }⟩

/-- main.py `delete` (lines 217-235): same fetch and ownership checks as
`toggle`; on success remove the row and flash a success notice. -/
def delete (s : Store) (sess : Option Nat) (todo_id : Nat) : HResult :=
  match currentUser s sess with
  | none => loginRequiredRedirect s sess
  | some u =>
      match getTodo s todo_id with
      | none => ⟨.redirectIndex, [("Todo not found", "danger")], sess, s⟩
      | some t =>
          if t.user_id != u.id then
            ⟨.redirectIndex, [("Unauthorized", "danger")], sess, s⟩
          else
            ⟨.redirectIndex, [("Todo deleted", "success")], sess,
             { s with todos := eraseTodo todo_id s.todos }⟩

/-! ### Store well-formedness and reachability

The database schema guarantees primary-key uniqueness, the unique email
constraint and referential integrity.  `WF` states them for the model;
`Reachable` closes the empty database under every request handler and under
the cascade delete, and `reachable_wf` shows `WF` is an invariant. -/

/-- Schema-level invariants of the store: every todo references an existing
user, primary keys and emails are duplicate-free, and the auto-increment
counters bound every existing key. -/
structure WF (s : Store) : Prop where
  owners : ∀ t ∈ s.todos, ∃ u ∈ s.users, u.id = t.user_id
  todoIds : (s.todos.map Todo.id).Nodup
  userIds : (s.users.map User.id).Nodup
  userEmails : (s.users.map User.email).Nodup
  userLt : ∀ u ∈ s.users, u.id < s.nextUserId
  todoLt : ∀ t ∈ s.todos, t.id < s.nextTodoId

/-- Stores reachable from the freshly created database by the request
handlers of main.py and the cascade delete declared in models.py. -/
inductive Reachable : Store → Prop where
  | init : Reachable emptyStore
  | step_register (s : Store) (sess : Option Nat) (e p p2 : String) :
      Reachable s → Reachable (register s sess e p p2).store
  | step_login (s : Store) (sess : Option Nat) (e p : String) (r : Bool)
      (nx : Option String) :
      Reachable s → Reachable (login s sess e p r nx).store
  | step_logout (s : Store) (sess : Option Nat) :
      Reachable s → Reachable (logout s sess).store
  | step_index (s : Store) (sess : Option Nat) (c : Option String) :
      Reachable s → Reachable (index s sess c).store
  | step_toggle (s : Store) (sess : Option Nat) (tid : Nat) :
      Reachable s → Reachable (toggle s sess tid).store
  | step_delete (s : Store) (sess : Option Nat) (tid : Nat) :
      Reachable s → Reachable (delete s sess tid).store
  | step_cascade (s : Store) (uid : Nat) :
      Reachable s → Reachable (deleteUser s uid)

/-! ### List-level helper lemmas -/

/-- A duplicate-free key column makes the key a primary key: two rows with
the same key are the same row. -/
theorem nodup_key_inj {α β : Type} (f : α → β) {l : List α}
    (h : (l.map f).Nodup) {a b : α}
    (ha : a ∈ l) (hb : b ∈ l) (hf : f a = f b) : a = b := by
  by_contra hne
  have hp : l.Pairwise (fun x y => f x ≠ f y) := (List.pairwise_map).mp h
  have hsym : Symmetric (fun x y : α => f x ≠ f y) :=
    fun _ _ hxy he => hxy he.symm
  exact List.Pairwise.forall hsym hp ha hb hne hf

/-- A successful `find?` splits the list at the first hit. -/
theorem find?_split {α : Type} (p : α → Bool) {l : List α} {a : α}
    (h : l.find? p = some a) :
    ∃ l1 l2, l = l1 ++ a :: l2 ∧ ∀ x ∈ l1, p x = false := by
  induction l with
  | nil => simp [List.find?] at h
  | cons b l ih =>
      by_cases hb : p b
      · rw [List.find?_cons_of_pos _ hb] at h
        exact ⟨[], l, by simp [Option.some.inj h], by simp⟩
      · rw [List.find?_cons_of_neg _ hb] at h
        obtain ⟨l1, l2, hl, hl1⟩ := ih h
        exact ⟨b :: l1, l2, by simp [hl], by
          intro x hx
          rcases List.mem_cons.mp hx with h1 | h1
          · simpa [h1] using hb
          · exact hl1 x h1⟩

/-- `setTodo` rewrites exactly the first row whose id matches. -/
theorem setTodo_append (tid : Nat) (f : Todo → Todo) (l1 l2 : List Todo)
    (t : Todo) (h1 : ∀ x ∈ l1, (x.id == tid) = false) (h2 : t.id = tid) :
    setTodo tid f (l1 ++ t :: l2) = l1 ++ f t :: l2 := by
  induction l1 with
  | nil => simp [setTodo, h2]
  | cons a l1 ih =>
      have ha : (a.id == tid) = false := h1 a (by simp)
      simp only [List.cons_append, setTodo, ha, Bool.false_eq_true, if_false,
        List.cons.injEq, true_and]
      exact ih fun x hx => h1 x (by simp [hx])

/-- `eraseTodo` removes exactly the first row whose id matches. -/
theorem eraseTodo_append (tid : Nat) (l1 l2 : List Todo)
    (t : Todo) (h1 : ∀ x ∈ l1, (x.id == tid) = false) (h2 : t.id = tid) :
    eraseTodo tid (l1 ++ t :: l2) = l1 ++ l2 := by
  induction l1 with
  | nil => simp [eraseTodo, h2]
  | cons a l1 ih =>
      have ha : (a.id == tid) = false := h1 a (by simp)
      simp only [List.cons_append, eraseTodo, ha, Bool.false_eq_true, if_false,
        List.cons.injEq, true_and]
      exact ih fun x hx => h1 x (by simp [hx])

/-- `setTodo` with an id-preserving rewrite leaves the id column unchanged. -/
theorem setTodo_map_id (tid : Nat) (f : Todo → Todo)
    (hf : ∀ t, (f t).id = t.id) (l : List Todo) :
    (setTodo tid f l).map Todo.id = l.map Todo.id := by
  induction l with
  | nil => rfl
  | cons a l ih =>
      by_cases ha : (a.id == tid) = true
      · simp [setTodo, ha, hf]
      · simp only [setTodo, ha, Bool.false_eq_true, if_false, List.map_cons, ih]

/-- `setTodo` with an owner-preserving rewrite leaves the owner column
unchanged. -/
theorem setTodo_map_user (tid : Nat) (f : Todo → Todo)
    (hf : ∀ t, (f t).user_id = t.user_id) (l : List Todo) :
    (setTodo tid f l).map Todo.user_id = l.map Todo.user_id := by
  induction l with
  | nil => rfl
  | cons a l ih =>
      by_cases ha : (a.id == tid) = true
      · simp [setTodo, ha, hf]
      · simp only [setTodo, ha, Bool.false_eq_true, if_false, List.map_cons, ih]

/-- Erasing a row yields a sublist of the table. -/
theorem eraseTodo_sublist (tid : Nat) (l : List Todo) :
    List.Sublist (eraseTodo tid l) l := by
  induction l with
  | nil => simp [eraseTodo]
  | cons a l ih =>
      by_cases ha : (a.id == tid) = true
      · simpa [eraseTodo, ha] using List.sublist_cons_self a l
      · simpa [eraseTodo, ha] using List.Sublist.cons₂ a ih

/-! ### Preservation of the invariant by every operation -/

/-- The freshly created database is well-formed. -/
theorem wf_empty : WF emptyStore := by
  constructor <;> simp [emptyStore]

/-- Inserting a user with a fresh email under the unique constraint
preserves well-formedness. -/
theorem insertUser_wf {s : Store} (h : WF s) {e pw : String}
    (hfresh : ∀ x ∈ s.users, x.email ≠ e) :
    WF { s with users := s.users ++ [⟨s.nextUserId, e, pw⟩],
                nextUserId := s.nextUserId + 1 } := by
  constructor
  · intro t ht
    obtain ⟨u, hu, hid⟩ := h.owners t ht
    exact ⟨u, List.mem_append_left _ hu, hid⟩
  · exact h.todoIds
  · simp only [List.map_append, List.map_cons, List.map_nil]
    rw [List.nodup_append]
    refine ⟨h.userIds, List.nodup_singleton _, ?_⟩
    intro a ha hb
    obtain ⟨u, hu, rfl⟩ := List.mem_map.mp ha
    have hlt := h.userLt u hu
    have : u.id = s.nextUserId := by simpa using hb
    omega
  · simp only [List.map_append, List.map_cons, List.map_nil]
    rw [List.nodup_append]
    refine ⟨h.userEmails, List.nodup_singleton _, ?_⟩
    intro a ha hb
    obtain ⟨u, hu, rfl⟩ := List.mem_map.mp ha
    exact hfresh u hu (by simpa using hb)
  · intro u hu
    rcases List.mem_append.mp hu with h1 | h1
    · exact Nat.lt_trans (h.userLt u h1) (Nat.lt_succ_self _)
    · have : u = ⟨s.nextUserId, e, pw⟩ := by simpa using h1
      subst this
      exact Nat.lt_succ_self _
  · exact h.todoLt

/-- Inserting a todo owned by an existing user with the next primary key
preserves well-formedness. -/
theorem insertTodo_wf {s : Store} (h : WF s) {c : String} {u : User}
    (hu : u ∈ s.users) :
    WF { s with todos := s.todos ++ [⟨s.nextTodoId, c, false, u.id⟩],
                nextTodoId := s.nextTodoId + 1 } := by
  constructor
  · intro t ht
    rcases List.mem_append.mp ht with h1 | h1
    · obtain ⟨v, hv, hid⟩ := h.owners t h1
      exact ⟨v, hv, hid⟩
    · have : t = ⟨s.nextTodoId, c, false, u.id⟩ := by simpa using h1
      subst this
      exact ⟨u, hu, rfl⟩
  · simp only [List.map_append, List.map_cons, List.map_nil]
    rw [List.nodup_append]
    refine ⟨h.todoIds, List.nodup_singleton _, ?_⟩
    intro a ha hb
    obtain ⟨t, ht, rfl⟩ := List.mem_map.mp ha
    have hlt := h.todoLt t ht
    have : t.id = s.nextTodoId := by simpa using hb
    omega
  · exact h.userIds
  · exact h.userEmails
  · exact h.userLt
  · intro t ht
    rcases List.mem_append.mp ht with h1 | h1
    · exact Nat.lt_trans (h.todoLt t h1) (Nat.lt_succ_self _)
    · have : t = ⟨s.nextTodoId, c, false, u.id⟩ := by simpa using h1
      subst this
      exact Nat.lt_succ_self _

/-- Rewriting one todo in place, preserving its key and owner, preserves
well-formedness. -/
theorem setTodo_wf {s : Store} (h : WF s) (tid : Nat) (f : Todo → Todo)
    (hid : ∀ t, (f t).id = t.id) (huid : ∀ t, (f t).user_id = t.user_id) :
    WF { s with todos := setTodo tid f s.todos } := by
  constructor
  · intro t ht
    have hm : t.user_id ∈ (setTodo tid f s.todos).map Todo.user_id :=
      List.mem_map_of_mem _ ht
    rw [setTodo_map_user tid f huid] at hm
    obtain ⟨t', ht', hval⟩ := List.mem_map.mp hm
    obtain ⟨u, hu, hid'⟩ := h.owners t' ht'
    exact ⟨u, hu, by rw [hid', hval]⟩
  · rw [setTodo_map_id tid f hid]
    exact h.todoIds
  · exact h.userIds
  · exact h.userEmails
  · exact h.userLt
  · intro t ht
    have hm : t.id ∈ (setTodo tid f s.todos).map Todo.id :=
      List.mem_map_of_mem _ ht
    rw [setTodo_map_id tid f hid] at hm
    obtain ⟨t', ht', hval⟩ := List.mem_map.mp hm
    exact hval ▸ h.todoLt t' ht'

/-- Removing one todo row preserves well-formedness. -/
theorem eraseTodo_wf {s : Store} (h : WF s) (tid : Nat) :
    WF { s with todos := eraseTodo tid s.todos } := by
  have hsub := eraseTodo_sublist tid s.todos
  constructor
  · intro t ht
    exact h.owners t (hsub.subset ht)
  · exact h.todoIds.sublist (hsub.map Todo.id)
  · exact h.userIds
  · exact h.userEmails
  · exact h.userLt
  · intro t ht
    exact h.todoLt t (hsub.subset ht)

/-- The cascade delete preserves well-formedness; in particular it never
leaves an orphaned todo. -/
theorem deleteUser_wf {s : Store} (h : WF s) (uid : Nat) :
    WF (deleteUser s uid) := by
  constructor
  · intro t ht
    simp only [deleteUser] at ht ⊢
    obtain ⟨htmem, htne⟩ := List.mem_filter.mp ht
    obtain ⟨u, hu, hid⟩ := h.owners t htmem
    refine ⟨u, List.mem_filter.mpr ⟨hu, ?_⟩, hid⟩
    rw [bne_iff_ne, hid]
    exact bne_iff_ne.mp htne
  · exact h.todoIds.sublist ((List.filter_sublist _).map Todo.id)
  · exact h.userIds.sublist ((List.filter_sublist _).map User.id)
  · exact h.userEmails.sublist ((List.filter_sublist _).map User.email)
  · intro u hu
    exact h.userLt u (List.mem_filter.mp hu).1
  · intro t ht
    exact h.todoLt t (List.mem_filter.mp ht).1

/-- `login` never writes to the store. -/
theorem login_store_eq (s : Store) (sess : Option Nat) (e p : String)
    (r : Bool) (nx : Option String) : (login s sess e p r nx).store = s := by
  unfold login
  split
  · split
    · split <;> rfl
    · rfl
  · rfl

/-- `logout` never writes to the store. -/
theorem logout_store_eq (s : Store) (sess : Option Nat) :
    (logout s sess).store = s := by
  unfold logout
  split <;> rfl

/-- `register` preserves well-formedness. -/
theorem register_wf {s : Store} (h : WF s) (sess : Option Nat)
    (e p p2 : String) : WF (register s sess e p p2).store := by
  unfold register
  split
  · cases hfind : findByEmail s e with
    | some u => exact h
    | none =>
        have hall : ∀ x ∈ s.users, ¬ ((x.email == e) = true) :=
          List.find?_eq_none.mp hfind
        have hany : (s.users.any (·.email == e)) = false := by
          rw [List.any_eq_false]
          exact hall
        simp only [dbInsertUser, hany, Bool.false_eq_true, if_false]
        exact insertUser_wf h fun x hx heq => hall x hx (beq_iff_eq.mpr heq)
  · exact h

/-- `index` preserves well-formedness. -/
theorem index_wf {s : Store} (h : WF s) (sess : Option Nat)
    (c? : Option String) : WF (index s sess c?).store := by
  unfold index
  cases hcu : currentUser s sess with
  | none => exact h
  | some u =>
      dsimp only
      cases c? with
      | none => exact h
      | some c =>
          dsimp only
          by_cases hv : todoFormValid c = true
          · rw [if_pos hv]
            have hu : u ∈ s.users := by
              unfold currentUser at hcu
              cases sess with
              | none => simp at hcu
              | some uid => exact List.mem_of_find?_eq_some hcu
            exact insertTodo_wf h hu
          · rw [if_neg hv]
            exact h

/-- `toggle` preserves well-formedness. -/
theorem toggle_wf {s : Store} (h : WF s) (sess : Option Nat) (tid : Nat) :
    WF (toggle s sess tid).store := by
  unfold toggle
  cases hcu : currentUser s sess with
  | none => exact h
  | some u =>
      dsimp only
      cases ht : getTodo s tid with
      | none => exact h
      | some t =>
          dsimp only
          by_cases hb : (t.user_id != u.id) = true
          · rw [if_pos hb]
            exact h
          · rw [if_neg hb]
            exact setTodo_wf h tid _ (fun _ => rfl) (fun _ => rfl)

/-- `delete` preserves well-formedness. -/
theorem delete_wf {s : Store} (h : WF s) (sess : Option Nat) (tid : Nat) :
    WF (delete s sess tid).store := by
  unfold delete
  cases hcu : currentUser s sess with
  | none => exact h
  | some u =>
      dsimp only
      cases ht : getTodo s tid with
      | none => exact h
      | some t =>
          dsimp only
          by_cases hb : (t.user_id != u.id) = true
          · rw [if_pos hb]
            exact h
          · rw [if_neg hb]
            exact eraseTodo_wf h tid

/-- Well-formedness is an invariant of the system: it holds in every
reachable store. -/
theorem reachable_wf {s : Store} (h : Reachable s) : WF s := by
  induction h with
  | init => exact wf_empty
  | step_register s sess e p p2 _ ih => exact register_wf ih sess e p p2
  | step_login s sess e p r nx _ ih =>
      rw [login_store_eq]
      exact ih
  | step_logout s sess _ ih =>
      rw [logout_store_eq]
      exact ih
  | step_index s sess c _ ih => exact index_wf ih sess c
  | step_toggle s sess tid _ ih => exact toggle_wf ih sess tid
  | step_delete s sess tid _ ih => exact delete_wf ih sess tid
  | step_cascade s uid _ ih => exact deleteUser_wf ih uid

/-! ### Properties of the password-hash model -/

/-- String concatenation is left-cancellative. -/
theorem string_append_cancel_left (a : String) {b c : String}
    (h : a ++ b = a ++ c) : b = c := by
  have hd : a.data ++ b.data = a.data ++ c.data := congrArg String.data h
  have hbc := List.append_cancel_left hd
  cases b
  cases c
  exact congrArg String.mk hbc

/-- The constant part of every stored hash string; the digest model appends
the plaintext after it. -/
def hashConstPart : String :=
  "pbkdf2:sha256:600000" ++ "$" ++ modelSalt ++ "$" ++ modelSalt ++ "|"

/-- Every stored hash is the constant part followed by the plaintext. -/
theorem gph_eq (p : String) :
    generate_password_hash p = hashConstPart ++ p := by
  simp [generate_password_hash, hashDigest, hashConstPart, String.append_assoc]

/-- The hash model is injective: distinct plaintexts have distinct stored
hashes. -/
theorem gph_injective {p q : String}
    (h : generate_password_hash p = generate_password_hash q) : p = q := by
  rw [gph_eq, gph_eq] at h
  exact string_append_cancel_left _ h

/-- The stored hash is never the plaintext itself: it is strictly longer. -/
theorem gph_ne_plaintext (p : String) : generate_password_hash p ≠ p := by
  intro h
  have hl : (generate_password_hash p).length = p.length := congrArg String.length h
  rw [gph_eq, String.length_append] at hl
  have hc : hashConstPart.length = 55 := by decide
  omega

/-- In a table with a duplicate-free email column, filtering on the email of
a present row returns exactly that row. -/
theorem filter_email_unique {l : List User} (hn : (l.map User.email).Nodup)
    {u : User} (hu : u ∈ l) :
    (l.filter (·.email == u.email)).length = 1 := by
  induction l with
  | nil => simp at hu
  | cons a l ih =>
      simp only [List.map_cons, List.nodup_cons] at hn
      obtain ⟨hna, hnl⟩ := hn
      rcases List.mem_cons.mp hu with rfl | hmem
      · have hfl : l.filter (·.email == u.email) = [] := by
          rw [List.filter_eq_nil_iff]
          intro x hx hbx
          have hxe : x.email = u.email := beq_iff_eq.mp hbx
          exact hna (hxe ▸ List.mem_map_of_mem User.email hx)
        simp [List.filter_cons, hfl]
      · have hne : a.email ≠ u.email := fun he =>
          hna (he ▸ List.mem_map_of_mem User.email hmem)
        have hb : (a.email == u.email) = false := beq_eq_false_iff_ne.mpr hne
        simp [List.filter_cons, hb, ih hnl hmem]

/-! ### The claims -/

/-- C1: for every todo T owned by user A and every distinct authenticated
user B, toggling or deleting T as requester B fails with the `Unauthorized`
flash and leaves the whole store — in particular T — unchanged. -/
theorem C1_cross_user_mutation_unauthorized (s : Store) (sess : Option Nat)
    (tid : Nat) (t : Todo) (uA uB : User)
    (ht : getTodo s tid = some t)
    (hA : load_user s t.user_id = some uA)
    (hB : currentUser s sess = some uB)
    (hAB : uB.id ≠ uA.id) :
    toggle s sess tid = ⟨.redirectIndex, [("Unauthorized", "danger")], sess, s⟩ ∧
    delete s sess tid = ⟨.redirectIndex, [("Unauthorized", "danger")], sess, s⟩ := by
  have hid : uA.id = t.user_id := by
    have h := List.find?_some hA
    simpa using h
  have hbne : (t.user_id != uB.id) = true := by
    rw [bne_iff_ne]
    intro he
    exact hAB ((hid.trans he).symm)
  constructor
  · simp [toggle, hB, ht, hbne]
  · simp [delete, hB, ht, hbne]

/-- Concrete run of C1: user 2 attempts to toggle and delete the todo owned
by user 1; both fail with `Unauthorized` and the store is unchanged. -/
theorem C1_witness :
    toggle ⟨[⟨1, "a@x.com", "h1"⟩, ⟨2, "b@x.com", "h2"⟩], [⟨1, "x", false, 1⟩], 3, 2⟩
        (some 2) 1
      = ⟨.redirectIndex, [("Unauthorized", "danger")], some 2,
         ⟨[⟨1, "a@x.com", "h1"⟩, ⟨2, "b@x.com", "h2"⟩], [⟨1, "x", false, 1⟩], 3, 2⟩⟩ ∧
    delete ⟨[⟨1, "a@x.com", "h1"⟩, ⟨2, "b@x.com", "h2"⟩], [⟨1, "x", false, 1⟩], 3, 2⟩
        (some 2) 1
      = ⟨.redirectIndex, [("Unauthorized", "danger")], some 2,
         ⟨[⟨1, "a@x.com", "h1"⟩, ⟨2, "b@x.com", "h2"⟩], [⟨1, "x", false, 1⟩], 3, 2⟩⟩ :=
  C1_cross_user_mutation_unauthorized
    ⟨[⟨1, "a@x.com", "h1"⟩, ⟨2, "b@x.com", "h2"⟩], [⟨1, "x", false, 1⟩], 3, 2⟩
    (some 2) 1 ⟨1, "x", false, 1⟩ ⟨1, "a@x.com", "h1"⟩ ⟨2, "b@x.com", "h2"⟩
    rfl rfl rfl (by decide)

/-- C2: a login with an email matching no user and a login with an existing
email but a failing password produce identical observable results: the same
response, the same single generic flash, the same anonymous session, the
same store. -/
theorem C2_login_failures_indistinguishable (s : Store) (e1 p1 e2 p2 : String)
    (u : User) (r1 r2 : Bool) (nx1 nx2 : Option String)
    (hf1 : loginFormValid e1 p1 = true) (hf2 : loginFormValid e2 p2 = true)
    (h1 : findByEmail s e1 = none) (h2 : findByEmail s e2 = some u)
    (hpw : u.check_password p2 = false) :
    login s none e1 p1 r1 nx1 = login s none e2 p2 r2 nx2 ∧
    (login s none e1 p1 r1 nx1).session = none ∧
    (login s none e1 p1 r1 nx1).flashes
      = [("Invalid email or password", "danger")] := by
  have ha : login s none e1 p1 r1 nx1
      = ⟨.renderLogin, [("Invalid email or password", "danger")], none, s⟩ := by
    simp [login, hf1, h1]
  have hb : login s none e2 p2 r2 nx2
      = ⟨.renderLogin, [("Invalid email or password", "danger")], none, s⟩ := by
    simp [login, hf2, h2, hpw]
  rw [ha, hb]
  exact ⟨rfl, rfl, rfl⟩

/-- C5: an authenticated add with empty content, or content longer than 200
characters, fails validation and persists nothing: the handler re-renders
the unchanged list and the store is returned unmodified. -/
theorem C5_add_rejects_invalid_content (s : Store) (sess : Option Nat)
    (u : User) (c : String) (hu : currentUser s sess = some u)
    (hc : c = "" ∨ 200 < c.length) :
    index s sess (some c)
      = ⟨.renderIndex (listForOwner s u.id), [], sess, s⟩ := by
  have hv : todoFormValid c = false := by
    rcases hc with rfl | h
    · decide
    · have hd : decide (c.length ≤ 200) = false := decide_eq_false (by omega)
      simp [todoFormValid, hd]
  simp [index, hu, hv]

/-- C9: logout while authenticated clears the session; logout while
anonymous is intercepted by the login gate as a redirect carrying only an
informational notice — never an error flash — with the session still
anonymous and the store untouched. -/
theorem C9_logout_behaviour (s : Store) :
    (∀ (sess : Option Nat) (u : User), currentUser s sess = some u →
        logout s sess
          = ⟨.redirectLogin, [("You have been logged out", "info")], none, s⟩) ∧
    logout s none
      = ⟨.redirectLogin, [("Please log in to access this page.", "message")],
         none, s⟩ ∧
    ∀ m ∈ (logout s none).flashes, m.2 ≠ "danger" := by
  have h0 : logout s none
      = ⟨.redirectLogin, [("Please log in to access this page.", "message")],
         none, s⟩ := rfl
  refine ⟨?_, h0, ?_⟩
  · intro sess u hu
    simp [logout, hu]
  · intro m hm
    rw [h0] at hm
    simp only [List.mem_singleton] at hm
    rw [hm]
    decide

/-- C10: registration rejects a password shorter than 6 characters, and a
confirmation that differs from the password, before touching the store: the
handler re-renders the form and the store is returned unmodified. -/
theorem C10_register_password_rules (s : Store) (sess : Option Nat)
    (e p p2 : String) (h : p.length < 6 ∨ p2 ≠ p) :
    register s sess e p p2 = ⟨.renderRegister, [], sess, s⟩ := by
  have hv : registerFormValid e p p2 = false := by
    rcases h with h | h
    · have hd : decide (6 ≤ p.length) = false := decide_eq_false (by omega)
      simp [registerFormValid, hd]
    · have hd : (p2 == p) = false := beq_eq_false_iff_ne.mpr h
      simp [registerFormValid, hd]
  simp [register, hv]

/-- Concrete run of C2: unknown email versus wrong password against the
same one-user store give the same observable result. -/
theorem C2_witness :
    login ⟨[⟨1, "a@x.com", generate_password_hash "secret1"⟩], [], 2, 1⟩ none
        "b@x.com" "pw1234" false none
      = login ⟨[⟨1, "a@x.com", generate_password_hash "secret1"⟩], [], 2, 1⟩ none
          "a@x.com" "wrongpw" false none :=
  (C2_login_failures_indistinguishable
    ⟨[⟨1, "a@x.com", generate_password_hash "secret1"⟩], [], 2, 1⟩
    "b@x.com" "pw1234" "a@x.com" "wrongpw"
    ⟨1, "a@x.com", generate_password_hash "secret1"⟩ false false none none
    (by decide) (by decide) (by decide) (by decide) (by decide)).1

/-- Concrete run of C5: adding an empty todo as user 1 re-renders the empty
list and persists nothing. -/
theorem C5_witness :
    index ⟨[⟨1, "a@x.com", "h"⟩], [], 2, 1⟩ (some 1) (some "")
      = ⟨.renderIndex (listForOwner ⟨[⟨1, "a@x.com", "h"⟩], [], 2, 1⟩ 1), [],
         some 1, ⟨[⟨1, "a@x.com", "h"⟩], [], 2, 1⟩⟩ :=
  C5_add_rejects_invalid_content ⟨[⟨1, "a@x.com", "h"⟩], [], 2, 1⟩ (some 1)
    ⟨1, "a@x.com", "h"⟩ "" rfl (Or.inl rfl)

/-- Concrete run of C9: logging out an authenticated session clears it. -/
theorem C9_witness :
    logout ⟨[⟨1, "a@x.com", "h"⟩], [], 2, 1⟩ (some 1)
      = ⟨.redirectLogin, [("You have been logged out", "info")], none,
         ⟨[⟨1, "a@x.com", "h"⟩], [], 2, 1⟩⟩ :=
  (C9_logout_behaviour ⟨[⟨1, "a@x.com", "h"⟩], [], 2, 1⟩).1 (some 1)
    ⟨1, "a@x.com", "h"⟩ rfl

/-- Concrete run of C10: a 3-character password is rejected and no user is
created. -/
theorem C10_witness :
    register emptyStore none "a@x.com" "abc" "abc"
      = ⟨.renderRegister, [], none, emptyStore⟩ :=
  C10_register_password_rules emptyStore none "a@x.com" "abc" "abc"
    (Or.inl (by decide))

/-- C4: setting a password stores a value that is never the plaintext, the
plaintext supplied verifies, any distinct plaintext fails to verify; and any
user row that `register` adds to the store carries exactly the derived hash
of the submitted password. -/
theorem C4_password_hashing (u : User) (p q : String) (hne : q ≠ p) :
    (u.set_password p).password ≠ p ∧
    (u.set_password p).check_password p = true ∧
    (u.set_password p).check_password q = false ∧
    ∀ (s : Store) (sess : Option Nat) (e p2 : String) (u' : User),
      u' ∈ (register s sess e p p2).store.users →
      u' ∈ s.users ∨ u'.password = generate_password_hash p := by
  refine ⟨?_, ?_, ?_, ?_⟩
  · simpa [User.set_password] using gph_ne_plaintext p
  · simp [User.set_password, User.check_password, check_password_hash]
  · simp only [User.set_password, User.check_password, check_password_hash]
    exact beq_eq_false_iff_ne.mpr fun h => hne (gph_injective h).symm
  · intro s sess e p2 u' hu'
    unfold register at hu'
    by_cases hv : registerFormValid e p p2 = true
    · rw [if_pos hv] at hu'
      cases hfind : findByEmail s e with
      | some w =>
          simp only [hfind] at hu'
          exact Or.inl hu'
      | none =>
          simp only [hfind] at hu'
          have hall : ∀ x ∈ s.users, ¬ ((x.email == e) = true) :=
            List.find?_eq_none.mp hfind
          have hany : (s.users.any (·.email == e)) = false := by
            rw [List.any_eq_false]
            exact hall
          simp only [dbInsertUser, hany, Bool.false_eq_true, if_false] at hu'
          rcases List.mem_append.mp hu' with h1 | h1
          · exact Or.inl h1
          · right
            have he : u' = ⟨s.nextUserId, e, generate_password_hash p⟩ := by
              simpa using h1
            rw [he]
    · rw [if_neg hv] at hu'
      exact Or.inl hu'

/-- Concrete run of C4: the stored value for password `secret1` is not the
plaintext, `secret1` verifies, `wrongpw` does not. -/
theorem C4_witness :
    ((⟨0, "a@x.com", ""⟩ : User).set_password "secret1").password ≠ "secret1" ∧
    ((⟨0, "a@x.com", ""⟩ : User).set_password "secret1").check_password "secret1"
      = true ∧
    ((⟨0, "a@x.com", ""⟩ : User).set_password "secret1").check_password "wrongpw"
      = false :=
  ⟨(C4_password_hashing ⟨0, "a@x.com", ""⟩ "secret1" "wrongpw" (by decide)).1,
   (C4_password_hashing ⟨0, "a@x.com", ""⟩ "secret1" "wrongpw" (by decide)).2.1,
   (C4_password_hashing ⟨0, "a@x.com", ""⟩ "secret1" "wrongpw" (by decide)).2.2.1⟩

/-- C6: toggling a missing todo id fails with the `Todo not found` flash and
leaves the store unchanged; toggling an owned todo rewrites exactly that row,
negating only its completion flag, and persists the change. -/
theorem C6_toggle_spec (s : Store) (sess : Option Nat) (u : User) (tid : Nat)
    (hu : currentUser s sess = some u) :
    (getTodo s tid = none →
      toggle s sess tid
        = ⟨.redirectIndex, [("Todo not found", "danger")], sess, s⟩) ∧
    ∀ t, getTodo s tid = some t → t.user_id = u.id →
      ∃ l1 l2, s.todos = l1 ++ t :: l2 ∧ (∀ x ∈ l1, x.id ≠ tid) ∧
        toggle s sess tid
          = ⟨.redirectIndex, [], sess,
             { s with todos := l1 ++ { t with completed := !t.completed } :: l2 }⟩ := by
  constructor
  · intro h
    simp [toggle, hu, h]
  · intro t ht howner
    have ht' : s.todos.find? (fun td => td.id == tid) = some t := ht
    obtain ⟨l1, l2, hsplit, hfalse⟩ :=
      find?_split (fun td : Todo => td.id == tid) ht'
    have htid : t.id = tid := by
      have h := List.find?_some ht'
      simpa using h
    refine ⟨l1, l2, hsplit, ?_, ?_⟩
    · intro x hx
      have h := hfalse x hx
      simpa using h
    · have hset :
          setTodo tid (fun td => { td with completed := !td.completed }) s.todos
            = l1 ++ { t with completed := !t.completed } :: l2 := by
        rw [hsplit]
        exact setTodo_append tid _ l1 l2 t hfalse htid
      have hbne : (t.user_id != u.id) = false := by
        simp [howner]
      simp [toggle, hu, ht, hbne, hset]

/-- Concrete run of C6: toggling id 2 in a one-todo store flashes `Todo not
found`; toggling id 1 as its owner flips the flag of exactly that row. -/
theorem C6_witness :
    toggle ⟨[⟨1, "a@x.com", "h"⟩], [⟨1, "x", false, 1⟩], 2, 2⟩ (some 1) 2
      = ⟨.redirectIndex, [("Todo not found", "danger")], some 1,
         ⟨[⟨1, "a@x.com", "h"⟩], [⟨1, "x", false, 1⟩], 2, 2⟩⟩ ∧
    ∃ l1 l2,
      ([⟨1, "x", false, 1⟩] : List Todo) = l1 ++ ⟨1, "x", false, 1⟩ :: l2 ∧
      (∀ x ∈ l1, x.id ≠ 1) ∧
      toggle ⟨[⟨1, "a@x.com", "h"⟩], [⟨1, "x", false, 1⟩], 2, 2⟩ (some 1) 1
        = ⟨.redirectIndex, [], some 1,
           ⟨[⟨1, "a@x.com", "h"⟩], l1 ++ ⟨1, "x", true, 1⟩ :: l2, 2, 2⟩⟩ :=
  ⟨(C6_toggle_spec ⟨[⟨1, "a@x.com", "h"⟩], [⟨1, "x", false, 1⟩], 2, 2⟩ (some 1)
      ⟨1, "a@x.com", "h"⟩ 2 rfl).1 rfl,
   (C6_toggle_spec ⟨[⟨1, "a@x.com", "h"⟩], [⟨1, "x", false, 1⟩], 2, 2⟩ (some 1)
      ⟨1, "a@x.com", "h"⟩ 1 rfl).2 ⟨1, "x", false, 1⟩ rfl rfl⟩

/-- C3: in any reachable store already holding a user with email E, a valid
second registration with E fails with the `Email already registered` flash,
the store is unchanged and holds exactly one row with email E; and the
store-level uniqueness constraint alone — independent of the handler's
pre-check — rejects inserting a duplicate email. -/
theorem C3_duplicate_email (s : Store) (sess : Option Nat) (u : User)
    (E p p2 : String) (hs : Reachable s) (hu : u ∈ s.users) (hE : u.email = E)
    (hform : registerFormValid E p p2 = true) :
    register s sess E p p2
      = ⟨.redirectRegister, [("Email already registered", "danger")], sess, s⟩ ∧
    (s.users.filter (·.email == E)).length = 1 ∧
    ∀ (s2 : Store) (pw : String), (∃ v ∈ s2.users, v.email = E) →
      ∀ r, dbInsertUser s2 E pw ≠ .ok r := by
  have hwf := reachable_wf hs
  refine ⟨?_, ?_, ?_⟩
  · obtain ⟨w, hw⟩ : ∃ w, findByEmail s E = some w := by
      cases hfind : findByEmail s E with
      | none =>
          have hnone : s.users.find? (fun x : User => x.email == E) = none := hfind
          exact absurd (beq_iff_eq.mpr hE) (List.find?_eq_none.mp hnone u hu)
      | some w => exact ⟨w, rfl⟩
    simp [register, hform, hw]
  · subst hE
    exact filter_email_unique hwf.userEmails hu
  · intro s2 pw hex r
    have hany : (s2.users.any (·.email == E)) = true := by
      rw [List.any_eq_true]
      obtain ⟨v, hv, hvE⟩ := hex
      exact ⟨v, hv, beq_iff_eq.mpr hvE⟩
    simp [dbInsertUser, hany]

/-- Concrete run of C3: after registering `a@x.com`, a second valid
registration with `a@x.com` flashes `Email already registered` and leaves
the store unchanged. -/
theorem C3_witness :
    register (register emptyStore none "a@x.com" "secret1" "secret1").store
        none "a@x.com" "other66" "other66"
      = ⟨.redirectRegister, [("Email already registered", "danger")], none,
         (register emptyStore none "a@x.com" "secret1" "secret1").store⟩ :=
  (C3_duplicate_email (register emptyStore none "a@x.com" "secret1" "secret1").store
    none ⟨1, "a@x.com", generate_password_hash "secret1"⟩ "a@x.com"
    "other66" "other66"
    (Reachable.step_register emptyStore none "a@x.com" "secret1" "secret1"
      Reachable.init)
    (by decide) rfl (by decide)).1

/-- Step 1 of the §8 scenario: register `a@x.com` / `secret1`. -/
def demoReg : HResult := register emptyStore none "a@x.com" "secret1" "secret1"

/-- Step 2: log in with the registered credentials. -/
def demoLogin : HResult := login demoReg.store none "a@x.com" "secret1" false none

/-- Step 3: add `buy milk` as the logged-in user 1. -/
def demoAdd : HResult := index demoReg.store (some 1) (some "buy milk")

/-- Step 4: toggle the new todo. -/
def demoToggle : HResult := toggle demoAdd.store (some 1) 1

/-- Step 5: delete it again. -/
def demoDelete : HResult := delete demoToggle.store (some 1) 1

/-- C7: a valid authenticated add appends exactly one todo, created with
completion flag false, and the owner's list afterwards is the old list plus
exactly that item; and the full §8 scenario runs as specified, ending with
an empty list. -/
theorem C7_add_defaults_and_e2e :
    (∀ (s : Store) (sess : Option Nat) (u : User) (c : String),
       currentUser s sess = some u → todoFormValid c = true →
       (index s sess (some c)).store.todos
           = s.todos ++ [⟨s.nextTodoId, c, false, u.id⟩] ∧
       listForOwner (index s sess (some c)).store u.id
           = listForOwner s u.id ++ [⟨s.nextTodoId, c, false, u.id⟩] ∧
       (index s sess (some c)).response = .redirectIndex) ∧
    demoReg.response = .redirectLogin ∧
    demoLogin.session = some 1 ∧
    demoLogin.response = .redirectIndex ∧
    listForOwner demoAdd.store 1 = [⟨1, "buy milk", false, 1⟩] ∧
    getTodo demoToggle.store 1 = some ⟨1, "buy milk", true, 1⟩ ∧
    listForOwner demoDelete.store 1 = [] := by
  refine ⟨?_, ?_, ?_, ?_, ?_, ?_, ?_⟩
  · intro s sess u c hu hv
    refine ⟨?_, ?_, ?_⟩
    · simp [index, hu, hv]
    · simp [index, hu, hv, listForOwner, List.filter_append]
    · simp [index, hu, hv]
  · decide
  · decide
  · decide
  · decide
  · decide
  · decide

/-- Concrete run of the universally quantified half of C7: adding
`buy milk` for user 1 redirects to the index and the stored table is the
one-row extension. -/
theorem C7_witness :
    (index demoReg.store (some 1) (some "buy milk")).store.todos
        = demoReg.store.todos ++ [⟨1, "buy milk", false, 1⟩] ∧
    (index demoReg.store (some 1) (some "buy milk")).response
        = .redirectIndex :=
  ⟨(C7_add_defaults_and_e2e.1 demoReg.store (some 1)
      ⟨1, "a@x.com", generate_password_hash "secret1"⟩ "buy milk"
      (by decide) (by decide)).1,
   (C7_add_defaults_and_e2e.1 demoReg.store (some 1)
      ⟨1, "a@x.com", generate_password_hash "secret1"⟩ "buy milk"
      (by decide) (by decide)).2.2⟩

/-- C8: deleting a user from any reachable store removes every todo row it
owned — none remains retrievable by id — and in every reachable store no todo
row references a non-existent user. -/
theorem C8_cascade_no_orphans (s : Store) (hs : Reachable s) (uid : Nat) :
    (∀ t ∈ s.todos, t.user_id = uid → getTodo (deleteUser s uid) t.id = none) ∧
    ∀ t ∈ s.todos, ∃ u ∈ s.users, u.id = t.user_id := by
  have hwf := reachable_wf hs
  refine ⟨?_, hwf.owners⟩
  intro t ht howner
  cases hfind : getTodo (deleteUser s uid) t.id with
  | none => rfl
  | some t' =>
      exfalso
      have hfind' : (deleteUser s uid).todos.find? (fun td : Todo => td.id == t.id)
          = some t' := hfind
      have ht'mem := List.mem_of_find?_eq_some hfind'
      simp only [deleteUser] at ht'mem
      obtain ⟨ht'todos, ht'ne⟩ := List.mem_filter.mp ht'mem
      have hid : t'.id = t.id := by
        have h := List.find?_some hfind'
        simpa using h
      have heq : t' = t := nodup_key_inj Todo.id hwf.todoIds ht'todos ht hid
      subst heq
      exact (bne_iff_ne.mp ht'ne) howner

/-- Concrete run of C8: after the register-and-add scenario, cascading the
deletion of user 1 leaves their todo unretrievable by id. -/
theorem C8_witness :
    getTodo (deleteUser demoAdd.store 1) 1 = none :=
  (C8_cascade_no_orphans demoAdd.store
    (Reachable.step_index demoReg.store (some 1) (some "buy milk")
      (Reachable.step_register emptyStore none "a@x.com" "secret1" "secret1"
        Reachable.init))
    1).1 ⟨1, "buy milk", false, 1⟩ (by decide) rfl

end TodoApp
